import Mathlib

/-!
# Verification of the secret-santa draft engine (`src/main.rs`)

Shallow embedding of the data model and operations of the repository:
the error taxonomy (`DraftError`), the `Member`/`Draft` structures, the
feasibility counts (`team_possibilities`, `team_len`), the randomized
assignment step (`find_ticket` / the map-collect pass of
`calculate_tickets`), the retrying solver (`calculate_tickets`), the
form parser (`from_form`) and the two store endpoints used by the
claims (`api_post_draft`, `api_draft_ticket`).

Modelling conventions:
* `HashSet<Member>` is embedded as a `List Member` whose order stands
  for the (unspecified but per-run stable) iteration order; insertion
  (`hsInsert`) deduplicates by full structural equality, exactly as the
  Rust `HashSet` does given the derived `PartialEq` on all three fields.
* `u32` team tags and counts are `Nat`; no count in any claim can reach
  `2^32`, and the team-tag parser (`parseU32`) enforces the `u32` range.
* The call to `rand::thread_rng` inside `choose` is made explicit: the
  solver takes a `Picker` (one per attempt).  A `ValidPicker` returns an
  element of the given list, and returns `some` exactly on non-empty
  lists, which is precisely the contract of `SliceRandom::choose`.
* Partiality is explicit: `calculate_tickets` consumes one `Picker` per
  attempt and yields `none` when the list of pickers is exhausted while
  the code would still be retrying; `from_form` yields `none` when the
  Rust code panics (the `unwrap` on `u32::from_str_radix`) or when the
  solver does not return.  `some r` therefore means "the Rust function
  returns `r` to its caller".
-/

/-- The error enum `DraftError` of `src/main.rs` (lines 19-26).  All five
variants are unit variants: none of them carries a payload. -/
inductive DraftError where
  | InvalidData
  | MemberAlreadyDefined
  | NotEnoughPossibilities
  | NoTeamOrNameDefined
  | CalculateAgain
deriving DecidableEq, Repr

/-- `struct Member` (lines 43-48): a name, a `u32` team tag and an optional
ticket (the recipient's name).  The derived Rust `PartialEq`/`Eq` compares
all three fields, hence structural `DecidableEq`. -/
structure Member where
  name : String
  team : Nat
  ticket : Option String
deriving DecidableEq, Repr

/-- `Member::new` (lines 51-57): ticket starts out as `None`. -/
def Member.new (name : String) (team : Nat) : Member :=
  { name := name, team := team, ticket := none }

/-- `struct Draft` (lines 66-71) with the member `HashSet` embedded as a
list in iteration order. -/
structure Draft where
  title : String
  date : String
  members : List Member
deriving DecidableEq, Repr

/-- `HashSet::insert`: a member structurally equal to a present one is
dropped (the set is unchanged); a new member is appended to the iteration
order. -/
def hsInsert (s : List Member) (m : Member) : List Member :=
  if m ∈ s then s else s ++ [m]

/-- `collect::<HashSet<Member>>()`: fold the produced members into a set
by repeated insertion. -/
def collectSet (l : List Member) : List Member :=
  l.foldl hsInsert []

/-- `Draft::team_possibilities` (lines 88-92): fold counting the members
whose team differs from `team`. -/
def Draft.team_possibilities (d : Draft) (team : Nat) : Nat :=
  d.members.foldl (fun x member => if member.team ≠ team then x + 1 else x) 0

/-- `Draft::team_len` (lines 93-97): fold counting the members of `team`. -/
def Draft.team_len (d : Draft) (team : Nat) : Nat :=
  d.members.foldl (fun x member => if member.team = team then x + 1 else x) 0

/-- One random draw from a slice: the explicit stand-in for
`SliceRandom::choose(&mut rand::thread_rng())`. -/
def Picker : Type :=
  List Member → Option Member

/-- The contract of `choose` on a slice: it picks an element of the slice,
and it yields `some` exactly on non-empty slices. -/
def ValidPicker (pick : Picker) : Prop :=
  ∀ l : List Member, (∀ m, pick l = some m → m ∈ l) ∧ (l ≠ [] → (pick l).isSome)

/-- The candidate vector `entries` built inside `Draft::find_ticket`
(lines 99-109): members other than `member` (full structural inequality),
on a different team, and not yet used. -/
def Draft.candidates (d : Draft) (member : Member) (used : List Member) : List Member :=
  d.members.filter (fun other =>
    decide (member ≠ other ∧ member.team ≠ other.team ∧ other ∉ used))

/-- `Draft::find_ticket` (lines 98-114): draw one candidate at random,
`None` when the candidate vector is empty. -/
def Draft.find_ticket (d : Draft) (pick : Picker) (member : Member) (used : List Member) :
    Option Member :=
  pick (d.candidates member used)

/-- The map-and-collect pass of `Draft::calculate_tickets` (lines 126-140):
process the members in iteration order, drawing a ticket for each and
pushing it onto `used`; the first failed draw aborts the whole pass with
`CalculateAgain`. -/
def Draft.attemptGo (d : Draft) (pick : Picker) :
    List Member → List Member → Except DraftError (List Member)
  | [], _ => .ok []
  | member :: rest, used =>
    match d.find_ticket pick member used with
    | none => .error .CalculateAgain
    | some ticket =>
      match d.attemptGo pick rest (used ++ [ticket]) with
      | .error e => .error e
      | .ok tail => .ok ({ member with ticket := some ticket.name } :: tail)

/-- The feasibility check at the top of `Draft::calculate_tickets`
(lines 116-122): `find` the first member whose team has fewer
possibilities than members. -/
def Draft.feasibilityFailure (d : Draft) : Option Member :=
  d.members.find? (fun member =>
    decide (d.team_possibilities member.team < d.team_len member.team))

/-- `Draft::calculate_tickets` (lines 115-149).  Every call — the initial
one and each recursive retry (the Rust self-call at line 146) — first runs
the feasibility check and fails with `NotEnoughPossibilities` if it finds
an offending member; only then is an assignment pass attempted, consuming
the next picker.  The check is spelled once per equation here solely so
the recursion is structural in `picks`; `d` never changes, so this is the
check-at-top-of-every-call of the source.  `none` models the recursion
still running when the pickers run out. -/
def Draft.calculate_tickets (d : Draft) : List Picker → Option (Except DraftError Draft)
  | [] =>
    match d.feasibilityFailure with
    | some _ => some (.error .NotEnoughPossibilities)
    | none => none
  | pick :: rest =>
    match d.feasibilityFailure with
    | some _ => some (.error .NotEnoughPossibilities)
    | none =>
      match d.attemptGo pick d.members [] with
      | .ok ms => some (.ok { d with members := collectSet ms })
      | .error .CalculateAgain => d.calculate_tickets rest
      | .error e => some (.error e)

/-- `u32::from_str_radix(value, 10)`: an optional leading `+`, then at
least one decimal digit, value within the `u32` range; anything else is a
parse error (`none`). -/
def parseU32 (s : String) : Option Nat :=
  let digits := match s.data with
    | '+' :: rest => rest
    | chars => chars
  if digits = [] then none
  else if digits.all Char.isDigit then
    let v := digits.foldl (fun acc c => acc * 10 + (c.toNat - '0'.toNat)) 0
    if v < 2 ^ 32 then some v else none
  else none

/-- The empty draft `from_form` starts from (lines 156-160). -/
def emptyDraft : Draft :=
  { title := "", date := "", members := [] }

/-- The item loop of `from_form` (lines 161-189).  Every item's value is
first checked against the empty string; then the key dispatches.  A `team`
item with a pending `name` inserts a member — the Rust code `unwrap`s the
team parse, so an unparsable team is a panic, embedded as `none`.  A
`team` without a pending name and any unknown key are `InvalidData`. -/
def processItems :
    List (String × String) → Draft → Option String → Option (Except DraftError Draft)
  | [], draft, _ => some (.ok draft)
  | (key, value) :: rest, draft, name =>
    if value = "" then some (.error .InvalidData)
    else if key = "title" then processItems rest { draft with title := value } name
    else if key = "date" then processItems rest { draft with date := value } name
    else if key = "name" then processItems rest draft (some value)
    else if key = "team" then
      match name with
      | some n =>
        match parseU32 value with
        | some t =>
          processItems rest { draft with members := hsInsert draft.members (Member.new n t) } none
        | none => none
      | none => some (.error .InvalidData)
    else some (.error .InvalidData)

/-- `<Draft as FromForm>::from_form` (lines 152-194): run the item loop
from an empty draft, then `calculate_tickets` on the result; the solved
draft is returned, any error propagates. -/
def from_form (items : List (String × String)) (picks : List Picker) :
    Option (Except DraftError Draft) :=
  match processItems items emptyDraft none with
  | none => none
  | some (.error e) => some (.error e)
  | some (.ok draft) =>
    match draft.calculate_tickets picks with
    | none => none
    | some (.error e) => some (.error e)
    | some (.ok solved) => some (.ok solved)

/-- `api_post_draft` (lines 206-216) on an acquired write lock: push the
parsed draft and answer with its index (`len - 1` after the push, i.e. the
length before it). -/
def api_post_draft (draft : Draft) (drafts : List Draft) : List Draft × Option Nat :=
  (drafts ++ [draft], some drafts.length)

/-- `api_draft_ticket` (lines 251-263) on an acquired read lock: index the
store, find the member by name, and answer with its (optional) ticket. -/
def api_draft_ticket (drafts : List Draft) (draft : Nat) (name : String) : Option String :=
  match drafts[draft]? with
  | some d =>
    match d.members.find? (fun member => member.name == name) with
    | some member => member.ticket
    | none => none
  | none => none

/-- The concrete picker used for the executable scenarios: always draw the
first candidate (one of the draws `choose` can make on every non-empty
slice). -/
def headPick : Picker :=
  List.head?

/-- The member produced for `member` by a successful draw of `ticket`
(line 136-137: clone and set the ticket to the drawn member's name). -/
def assignT (member ticket : Member) : Member :=
  { member with ticket := some ticket.name }

/-- The validity property of the spec, stated in the spec's words over a
solved draft: every member's ticket names another member, no two members
share a ticket, every member is some member's ticket, no member's ticket
is their own name, and no member's ticket names a member of the same
team. -/
def ValidAssignment (d : Draft) : Prop :=
  (∀ m ∈ d.members, ∃ o ∈ d.members, m.ticket = some o.name ∧ o ≠ m) ∧
  (∀ m₁ ∈ d.members, ∀ m₂ ∈ d.members, m₁.ticket = m₂.ticket → m₁ = m₂) ∧
  (∀ o ∈ d.members, ∃ m ∈ d.members, m.ticket = some o.name) ∧
  (∀ m ∈ d.members, m.ticket ≠ some m.name) ∧
  (∀ m ∈ d.members, ∀ o ∈ d.members, m.ticket = some o.name → o.team ≠ m.team)

/-! Concrete fixtures for the executable scenarios. -/

/-- Three members on three distinct teams: feasible, but the greedy pass
fails whenever the first two members draw each other. -/
def dABC : Draft :=
  Draft.mk "t" "d" [Member.new "A" 1, Member.new "B" 2, Member.new "C" 3]

/-- Two members sharing the name `A` on different teams — constructible
through `from_form`, see the C4 analysis. -/
def dAA : Draft :=
  Draft.mk "" "" [Member.new "A" 1, Member.new "A" 2]

/-- What solving `dAA` produces: both members ticketed with the shared
name `A`. -/
def dAAres : Draft :=
  Draft.mk "" "" [Member.mk "A" 1 (some "A"), Member.mk "A" 2 (some "A")]

/-- Everyone on team `1`: infeasible, offending team `1`. -/
def dT1 : Draft :=
  Draft.mk "" "" [Member.new "A" 1, Member.new "B" 1]

/-- Everyone on team `2`: infeasible, offending team `2`. -/
def dT2 : Draft :=
  Draft.mk "" "" [Member.new "C" 2, Member.new "D" 2]

/-- Two members on two teams: feasible, solvable in one attempt. -/
def dW : Draft :=
  Draft.mk "T" "D" [Member.new "A" 1, Member.new "B" 2]

/-- The solved form of `dW` under `headPick`. -/
def dWres : Draft :=
  Draft.mk "T" "D" [Member.mk "A" 1 (some "B"), Member.mk "B" 2 (some "A")]

/-- A well-formed submission for `dW`. -/
def itemsAB : List (String × String) :=
  [("title", "T"), ("date", "D"), ("name", "A"), ("team", "1"), ("name", "B"), ("team", "2")]

/-- A submission registering the name `A` twice, on two different teams. -/
def c4items : List (String × String) :=
  [("title", "T"), ("date", "D"), ("name", "A"), ("team", "1"), ("name", "A"), ("team", "2")]

/-- The draft `from_form` builds and solves out of `c4items`. -/
def c4draft : Draft :=
  Draft.mk "T" "D" [Member.mk "A" 1 (some "A"), Member.mk "A" 2 (some "A")]

/-- A submission whose team field is not parsable as an unsigned integer. -/
def c5items : List (String × String) :=
  [("title", "T"), ("date", "D"), ("name", "A"), ("team", "x")]

/-- A one-draft store holding the solved `dWres`, for the lookup claims. -/
def storeW : List Draft :=
  [dWres]

/-- A submission with a single participant (necessarily infeasible). -/
def c7items : List (String × String) :=
  [("title", "T"), ("date", "D"), ("name", "A"), ("team", "1")]

/-- The single-member draft built from `c7items`. -/
def dSingle : Draft :=
  Draft.mk "T" "D" [Member.new "A" 1]

/-! ## Counting and feasibility lemmas -/

lemma team_len_eq_countP (d : Draft) (t : Nat) :
    d.team_len t = d.members.countP (fun m => decide (m.team = t)) := by
  have aux : ∀ (l : List Member) (acc : Nat),
      l.foldl (fun x m => if m.team = t then x + 1 else x) acc
        = acc + l.countP (fun m => decide (m.team = t)) := by
    intro l
    induction l with
    | nil => intro acc; simp
    | cons m rest ih =>
      intro acc
      rw [List.foldl_cons, List.countP_cons, ih]
      by_cases h : m.team = t <;> (simp [h]; try omega)
  simpa [Draft.team_len] using aux d.members 0

lemma team_possibilities_eq_countP (d : Draft) (t : Nat) :
    d.team_possibilities t = d.members.countP (fun m => decide (m.team ≠ t)) := by
  have aux : ∀ (l : List Member) (acc : Nat),
      l.foldl (fun x m => if m.team ≠ t then x + 1 else x) acc
        = acc + l.countP (fun m => decide (m.team ≠ t)) := by
    intro l
    induction l with
    | nil => intro acc; simp
    | cons m rest ih =>
      intro acc
      rw [List.foldl_cons, List.countP_cons, ih]
      by_cases h : m.team = t <;> (simp [h]; try omega)
  simpa [Draft.team_possibilities] using aux d.members 0

lemma exists_member_of_team_len_pos (d : Draft) (t : Nat) (h : 0 < d.team_len t) :
    ∃ m ∈ d.members, m.team = t := by
  rw [team_len_eq_countP] at h
  obtain ⟨m, hm, hp⟩ := List.countP_pos_iff.mp h
  exact ⟨m, hm, by simpa using hp⟩

lemma feasibilityFailure_isSome (d : Draft) (t : Nat)
    (h : d.team_possibilities t < d.team_len t) :
    ∃ w, d.feasibilityFailure = some w := by
  obtain ⟨m, hm, hmt⟩ :=
    exists_member_of_team_len_pos d t (Nat.lt_of_le_of_lt (Nat.zero_le _) h)
  have : (d.members.find? (fun member =>
      decide (d.team_possibilities member.team < d.team_len member.team))).isSome := by
    rw [List.find?_isSome]
    exact ⟨m, hm, by simp [hmt, h]⟩
  obtain ⟨w, hw⟩ := Option.isSome_iff_exists.mp this
  exact ⟨w, hw⟩

lemma feasibilityFailure_eq_none (d : Draft)
    (h : ∀ t, d.team_len t ≤ d.team_possibilities t) :
    d.feasibilityFailure = none := by
  apply List.find?_eq_none.mpr
  intro m _
  simpa using Nat.not_lt.mpr (h m.team)

/-! ## Lemmas about one assignment pass -/

lemma attemptGo_error_eq (d : Draft) (pick : Picker) :
    ∀ (rest used : List Member) (e : DraftError),
      d.attemptGo pick rest used = .error e → e = .CalculateAgain := by
  intro rest
  induction rest with
  | nil => intro used e h; simp [Draft.attemptGo] at h
  | cons m rest ih =>
    intro used e h
    unfold Draft.attemptGo at h
    split at h
    · cases h; rfl
    · split at h
      · cases h
        rename_i heq
        exact ih _ _ heq
      · cases h

lemma attemptGo_ticket_isSome (d : Draft) (pick : Picker) :
    ∀ (rest used out : List Member),
      d.attemptGo pick rest used = .ok out → ∀ m ∈ out, m.ticket.isSome := by
  intro rest
  induction rest with
  | nil =>
    intro used out h
    cases h
    intro m hm
    cases hm
  | cons x rest ih =>
    intro used out h
    unfold Draft.attemptGo at h
    split at h
    · cases h
    · split at h
      · cases h
      · cases h
        rename_i ticket tail heq
        intro m hm
        rcases List.mem_cons.mp hm with rfl | hm
        · simp
        · exact ih _ _ heq m hm

/-! ## Set-collection lemmas -/

lemma mem_hsInsert {s : List Member} {x m : Member} :
    m ∈ hsInsert s x ↔ m ∈ s ∨ m = x := by
  unfold hsInsert
  by_cases h : x ∈ s <;> simp [h]
  intro hmx
  exact hmx ▸ h

lemma mem_foldl_hsInsert :
    ∀ (l acc : List Member) (m : Member),
      m ∈ l.foldl hsInsert acc ↔ m ∈ acc ∨ m ∈ l := by
  intro l
  induction l with
  | nil => intro acc m; simp
  | cons x rest ih =>
    intro acc m
    rw [List.foldl_cons, ih, mem_hsInsert]
    simp
    tauto

lemma mem_collectSet {l : List Member} {m : Member} :
    m ∈ collectSet l ↔ m ∈ l := by
  simp [collectSet, mem_foldl_hsInsert]


/-! ## Structure lemmas for the retry loop -/

lemma calculate_tickets_infeasible (d : Draft) (w : Member)
    (hsome : d.feasibilityFailure = some w) :
    ∀ picks, d.calculate_tickets picks = some (.error .NotEnoughPossibilities) := by
  intro picks
  cases picks with
  | nil => unfold Draft.calculate_tickets; rw [hsome]
  | cons pick rest => unfold Draft.calculate_tickets; rw [hsome]

lemma calculate_tickets_nil_feasible (d : Draft)
    (hnone : d.feasibilityFailure = none) :
    d.calculate_tickets [] = none := by
  unfold Draft.calculate_tickets
  rw [hnone]

lemma calculate_tickets_cons_feasible (d : Draft)
    (hnone : d.feasibilityFailure = none) (pick : Picker) (rest : List Picker) :
    d.calculate_tickets (pick :: rest) =
      match d.attemptGo pick d.members [] with
      | .ok ms => some (.ok { d with members := collectSet ms })
      | .error .CalculateAgain => d.calculate_tickets rest
      | .error e => some (.error e) := by
  conv_lhs => unfold Draft.calculate_tickets
  rw [hnone]

lemma calculate_tickets_ok (d : Draft) :
    ∀ (picks : List Picker) (d₂ : Draft),
      d.calculate_tickets picks = some (.ok d₂) →
      ∃ pick ∈ picks, ∃ ms, d.attemptGo pick d.members [] = .ok ms ∧
        d₂ = { d with members := collectSet ms } := by
  intro picks
  induction picks with
  | nil =>
    intro d₂ h
    cases hfe : d.feasibilityFailure with
    | some w => rw [calculate_tickets_infeasible d w hfe] at h; cases h
    | none => rw [calculate_tickets_nil_feasible d hfe] at h; cases h
  | cons pick rest ih =>
    intro d₂ h
    cases hfe : d.feasibilityFailure with
    | some w => rw [calculate_tickets_infeasible d w hfe] at h; cases h
    | none =>
      rw [calculate_tickets_cons_feasible d hfe] at h
      cases hA : d.attemptGo pick d.members [] with
      | ok ms =>
        rw [hA] at h
        cases h
        exact ⟨pick, List.mem_cons_self _ _, ms, hA, rfl⟩
      | error e =>
        have he := attemptGo_error_eq d pick d.members [] e hA
        subst he
        rw [hA] at h
        obtain ⟨p, hp, ms, hms, hd⟩ := ih d₂ h
        exact ⟨p, List.mem_cons_of_mem _ hp, ms, hms, hd⟩

lemma calculate_tickets_error (d : Draft) :
    ∀ (picks : List Picker) (e : DraftError),
      d.calculate_tickets picks = some (.error e) → e = .NotEnoughPossibilities := by
  intro picks
  induction picks with
  | nil =>
    intro e h
    cases hfe : d.feasibilityFailure with
    | some w =>
      rw [calculate_tickets_infeasible d w hfe] at h
      cases h; rfl
    | none => rw [calculate_tickets_nil_feasible d hfe] at h; cases h
  | cons pick rest ih =>
    intro e h
    cases hfe : d.feasibilityFailure with
    | some w =>
      rw [calculate_tickets_infeasible d w hfe] at h
      cases h; rfl
    | none =>
      rw [calculate_tickets_cons_feasible d hfe] at h
      cases hA : d.attemptGo pick d.members [] with
      | ok ms => rw [hA] at h; cases h
      | error e₂ =>
        have he := attemptGo_error_eq d pick d.members [] e₂ hA
        subst he
        rw [hA] at h
        exact ih e h

lemma calculate_tickets_feasible_not_error (d : Draft)
    (hfeas : ∀ t, d.team_len t ≤ d.team_possibilities t) :
    ∀ (picks : List Picker) (r : Except DraftError Draft),
      d.calculate_tickets picks = some r → r ≠ .error .NotEnoughPossibilities := by
  have hnone := feasibilityFailure_eq_none d hfeas
  intro picks
  induction picks with
  | nil =>
    intro r h
    rw [calculate_tickets_nil_feasible d hnone] at h
    cases h
  | cons pick rest ih =>
    intro r h
    rw [calculate_tickets_cons_feasible d hnone] at h
    cases hA : d.attemptGo pick d.members [] with
    | ok ms =>
      rw [hA] at h
      cases h
      simp
    | error e =>
      have he := attemptGo_error_eq d pick d.members [] e hA
      subst he
      rw [hA] at h
      exact ih r h

/-! ## Soundness of one assignment pass -/

@[simp] lemma assignT_name (m t : Member) : (assignT m t).name = m.name := rfl

@[simp] lemma assignT_team (m t : Member) : (assignT m t).team = m.team := rfl

@[simp] lemma assignT_ticket (m t : Member) : (assignT m t).ticket = some t.name := rfl

lemma candidates_mem {d : Draft} {member t : Member} {used : List Member}
    (h : t ∈ d.candidates member used) :
    t ∈ d.members ∧ t ≠ member ∧ t.team ≠ member.team ∧ t ∉ used := by
  unfold Draft.candidates at h
  rw [List.mem_filter] at h
  obtain ⟨hmem, hcond⟩ := h
  rw [decide_eq_true_eq] at hcond
  exact ⟨hmem, fun e => hcond.1 e.symm, fun e => hcond.2.1 e.symm, hcond.2.2⟩

lemma validPicker_headPick : ValidPicker headPick := by
  intro l
  constructor
  · intro m hm
    cases l with
    | nil => cases hm
    | cons x xs =>
      cases hm
      exact List.mem_cons_self _ _
  · intro hne
    cases l with
    | nil => exact absurd rfl hne
    | cons x xs => rfl

lemma attemptGo_sound (d : Draft) (pick : Picker) (hpick : ValidPicker pick) :
    ∀ (rest used out : List Member), d.attemptGo pick rest used = .ok out →
      ∃ ts : List Member,
        out = List.zipWith assignT rest ts ∧
        ts.length = rest.length ∧
        ts.Nodup ∧
        (∀ t ∈ ts, t ∉ used) ∧
        List.Forall₂ (fun m t => t ∈ d.members ∧ t ≠ m ∧ t.team ≠ m.team) rest ts := by
  intro rest
  induction rest with
  | nil =>
    intro used out h
    cases h
    exact ⟨[], rfl, rfl, List.nodup_nil, by simp, List.Forall₂.nil⟩
  | cons m rest ih =>
    intro used out h
    unfold Draft.attemptGo at h
    cases hf : d.find_ticket pick m used with
    | none => simp only [hf] at h; cases h
    | some t =>
      simp only [hf] at h
      cases hA : d.attemptGo pick rest (used ++ [t]) with
      | error e => simp only [hA] at h; cases h
      | ok tail =>
        simp only [hA] at h
        cases h
        have htc : t ∈ d.candidates m used := (hpick _).1 t hf
        obtain ⟨htm, htne, htteam, htused⟩ := candidates_mem htc
        obtain ⟨ts, hout, hlen, hnd, hused, hf2⟩ := ih (used ++ [t]) tail hA
        refine ⟨t :: ts, ?_, ?_, ?_, ?_, ?_⟩
        · rw [List.zipWith_cons_cons, hout]
          rfl
        · simp [hlen]
        · rw [List.nodup_cons]
          refine ⟨fun hts => ?_, hnd⟩
          have := hused t hts
          simp at this
        · intro x hx
          rcases List.mem_cons.mp hx with rfl | hx
          · exact htused
          · intro hxu
            exact hused x hx (List.mem_append_left _ hxu)
        · exact List.Forall₂.cons ⟨htm, htne, htteam⟩ hf2

/-! ## Lemmas about the form parser -/

lemma processItems_error :
    ∀ (items : List (String × String)) (draft : Draft) (name : Option String) (e : DraftError),
      processItems items draft name = some (.error e) → e = .InvalidData := by
  intro items
  induction items with
  | nil => intro draft name e h; cases h
  | cons item rest ih =>
    intro draft name e h
    obtain ⟨key, value⟩ := item
    unfold processItems at h
    split_ifs at h
    · cases h; rfl
    · exact ih _ _ _ h
    · exact ih _ _ _ h
    · exact ih _ _ _ h
    · cases name with
      | some n =>
        cases hp : parseU32 value with
        | some t => simp only [hp] at h; exact ih _ _ _ h
        | none => simp only [hp] at h; cases h
      | none => cases h; rfl
    · cases h; rfl

lemma from_form_ok (items : List (String × String)) (picks : List Picker) (d : Draft)
    (h : from_form items picks = some (.ok d)) :
    ∃ d₀, processItems items emptyDraft none = some (.ok d₀) ∧
      d₀.calculate_tickets picks = some (.ok d) := by
  unfold from_form at h
  cases hp : processItems items emptyDraft none with
  | none => simp only [hp] at h; cases h
  | some r =>
    cases r with
    | error e => simp only [hp] at h; cases h
    | ok d₀ =>
      simp only [hp] at h
      cases hc : d₀.calculate_tickets picks with
      | none => simp only [hc] at h; cases h
      | some r₂ =>
        cases r₂ with
        | error e => simp only [hc] at h; cases h
        | ok solved =>
          simp only [hc] at h
          cases h
          exact ⟨d₀, rfl, hc⟩

lemma from_form_error (items : List (String × String)) (picks : List Picker) (e : DraftError)
    (h : from_form items picks = some (.error e)) :
    e = .InvalidData ∨ e = .NotEnoughPossibilities := by
  unfold from_form at h
  cases hp : processItems items emptyDraft none with
  | none => simp only [hp] at h; cases h
  | some r =>
    cases r with
    | error e₀ =>
      simp only [hp] at h
      cases h
      exact Or.inl (processItems_error items _ _ _ hp)
    | ok d₀ =>
      simp only [hp] at h
      cases hc : d₀.calculate_tickets picks with
      | none => simp only [hc] at h; cases h
      | some r₂ =>
        cases r₂ with
        | error e₂ =>
          simp only [hc] at h
          cases h
          exact Or.inr (calculate_tickets_error d₀ picks e hc)
        | ok solved => simp only [hc] at h; cases h

lemma processItems_append_name (v : String) (hv : v ≠ "") :
    ∀ (items : List (String × String)) (draft : Draft) (name : Option String),
      processItems (items ++ [("name", v)]) draft name = processItems items draft name := by
  intro items
  induction items with
  | nil =>
    intro draft name
    simp [processItems, hv]
  | cons item rest ih =>
    intro draft name
    obtain ⟨key, value⟩ := item
    rw [List.cons_append]
    unfold processItems
    split_ifs
    · rfl
    · exact ih _ _
    · exact ih _ _
    · exact ih _ _
    · cases name with
      | some n =>
        cases hp : parseU32 value with
        | some t => simp only [hp]; exact ih _ _
        | none => simp only [hp]
      | none => rfl
    · rfl

/-! ## From a sound pass to the validity properties -/

lemma get_zipWith_assignT :
    ∀ (l₁ l₂ : List Member) (i : Nat) (h : i < (List.zipWith assignT l₁ l₂).length)
      (h₁ : i < l₁.length) (h₂ : i < l₂.length),
      (List.zipWith assignT l₁ l₂).get ⟨i, h⟩
        = assignT (l₁.get ⟨i, h₁⟩) (l₂.get ⟨i, h₂⟩) := by
  intro l₁
  induction l₁ with
  | nil => intro l₂ i h h₁ h₂; simp at h₁
  | cons a l₁ ih =>
    intro l₂ i h h₁ h₂
    cases l₂ with
    | nil => simp at h₂
    | cons b l₂ =>
      cases i with
      | zero => rfl
      | succ j =>
        simp only [List.zipWith_cons_cons] at h
        exact ih l₂ j (Nat.lt_of_succ_lt_succ h)
          (Nat.lt_of_succ_lt_succ h₁) (Nat.lt_of_succ_lt_succ h₂)

lemma solve_valid (d : Draft) (pick : Picker) (hpick : ValidPicker pick)
    (hnames : (d.members.map Member.name).Nodup)
    (ms : List Member) (hms : d.attemptGo pick d.members [] = .ok ms) :
    ValidAssignment { d with members := collectSet ms } := by
  obtain ⟨ts, hout, hlen, hnd, -, hf2⟩ := attemptGo_sound d pick hpick d.members [] ms hms
  have hinj : ∀ x ∈ d.members, ∀ y ∈ d.members, x.name = y.name → x = y :=
    fun x hx y hy => List.inj_on_of_nodup_map hnames hx hy
  have hget := (List.forall₂_iff_get.mp hf2).2
  have hmem : ∀ x, x ∈ ms ↔ ∃ (i : Nat) (h₁ : i < d.members.length) (h₂ : i < ts.length),
      x = assignT (d.members.get ⟨i, h₁⟩) (ts.get ⟨i, h₂⟩) := by
    intro x
    constructor
    · intro hx
      rw [hout] at hx
      obtain ⟨⟨i, hi⟩, hxi⟩ := List.mem_iff_get.mp hx
      have hi2 := hi
      rw [List.length_zipWith] at hi2
      have h₁ : i < d.members.length := lt_of_lt_of_le hi2 (min_le_left _ _)
      have h₂ : i < ts.length := lt_of_lt_of_le hi2 (min_le_right _ _)
      exact ⟨i, h₁, h₂, by rw [← hxi, get_zipWith_assignT _ _ i hi h₁ h₂]⟩
    · rintro ⟨i, h₁, h₂, rfl⟩
      rw [hout]
      have hi : i < (List.zipWith assignT d.members ts).length := by
        rw [List.length_zipWith]
        exact lt_min h₁ h₂
      rw [← get_zipWith_assignT d.members ts i hi h₁ h₂]
      exact List.get_mem _ _ _
  have hts_sub : ∀ x ∈ ts, x ∈ d.members := by
    intro x hx
    obtain ⟨⟨i, hi⟩, hxi⟩ := List.mem_iff_get.mp hx
    have h₁ : i < d.members.length := by omega
    exact hxi ▸ (hget i h₁ hi).1
  have hname_ne : ∀ (i : Nat) (h₁ : i < d.members.length) (h₂ : i < ts.length),
      (ts.get ⟨i, h₂⟩).name ≠ (d.members.get ⟨i, h₁⟩).name := by
    intro i h₁ h₂ hne
    obtain ⟨htmem, htne, -⟩ := hget i h₁ h₂
    exact htne (hinj _ htmem _ (List.get_mem _ _ _) hne)
  have htn_nodup : (ts.map Member.name).Nodup :=
    List.Nodup.map_on
      (fun x hx y hy hxy => hinj x (hts_sub x hx) y (hts_sub y hy) hxy) hnd
  have hnames_sub : ∀ x ∈ d.members.map Member.name, x ∈ ts.map Member.name := by
    intro x hx
    have hsub : (ts.map Member.name).toFinset ⊆ (d.members.map Member.name).toFinset := by
      intro y hy
      rw [List.mem_toFinset] at hy ⊢
      obtain ⟨t, ht, rfl⟩ := List.mem_map.mp hy
      exact List.mem_map.mpr ⟨t, hts_sub t ht, rfl⟩
    have hcard : (d.members.map Member.name).toFinset.card
        ≤ (ts.map Member.name).toFinset.card := by
      rw [List.toFinset_card_of_nodup htn_nodup, List.toFinset_card_of_nodup hnames]
      simp [hlen]
    have heq := Finset.eq_of_subset_of_card_le hsub hcard
    have : x ∈ (d.members.map Member.name).toFinset := List.mem_toFinset.mpr hx
    rw [← heq] at this
    exact List.mem_toFinset.mp this
  refine ⟨?_, ?_, ?_, ?_, ?_⟩
  · -- every member's ticket names another member
    intro m hm
    rw [show ({ d with members := collectSet ms } : Draft).members = collectSet ms from rfl,
      mem_collectSet, hmem] at hm
    obtain ⟨i, h₁, h₂, rfl⟩ := hm
    obtain ⟨⟨j, hj⟩, hji⟩ := List.mem_iff_get.mp (hget i h₁ h₂).1
    have h₂j : j < ts.length := by omega
    refine ⟨assignT (d.members.get ⟨j, hj⟩) (ts.get ⟨j, h₂j⟩), ?_, ?_, ?_⟩
    · rw [show ({ d with members := collectSet ms } : Draft).members = collectSet ms from rfl,
        mem_collectSet, hmem]
      exact ⟨j, hj, h₂j, rfl⟩
    · exact congrArg (fun w => some w.name) hji.symm
    · intro he
      have hne : (assignT (d.members.get ⟨j, hj⟩) (ts.get ⟨j, h₂j⟩)).name
          ≠ (assignT (d.members.get ⟨i, h₁⟩) (ts.get ⟨i, h₂⟩)).name := by
        simp only [assignT_name]
        rw [hji]
        exact hname_ne i h₁ h₂
      exact hne (congrArg Member.name he)
  · -- no two members share a ticket
    intro m₁ hm₁ m₂ hm₂ ht
    rw [show ({ d with members := collectSet ms } : Draft).members = collectSet ms from rfl,
      mem_collectSet, hmem] at hm₁ hm₂
    obtain ⟨i, hi₁, hi₂, rfl⟩ := hm₁
    obtain ⟨j, hj₁, hj₂, rfl⟩ := hm₂
    simp only [assignT_ticket, Option.some.injEq] at ht
    have hij : (⟨i, hi₂⟩ : Fin ts.length) = ⟨j, hj₂⟩ := by
      rw [← List.Nodup.get_inj_iff hnd]
      exact hinj _ (hget i hi₁ hi₂).1 _ (hget j hj₁ hj₂).1 ht
    have : i = j := congrArg Fin.val hij
    subst this
    rfl
  · -- every member is some member's ticket
    intro o ho
    rw [show ({ d with members := collectSet ms } : Draft).members = collectSet ms from rfl,
      mem_collectSet, hmem] at ho
    obtain ⟨j, hj₁, hj₂, rfl⟩ := ho
    have : (d.members.get ⟨j, hj₁⟩).name ∈ ts.map Member.name :=
      hnames_sub _ (List.mem_map.mpr ⟨_, List.get_mem _ _ _, rfl⟩)
    obtain ⟨t, htmem, htname⟩ := List.mem_map.mp this
    obtain ⟨⟨i, hi⟩, hti⟩ := List.mem_iff_get.mp htmem
    have h₁ : i < d.members.length := by omega
    refine ⟨assignT (d.members.get ⟨i, h₁⟩) (ts.get ⟨i, hi⟩), ?_, ?_⟩
    · rw [show ({ d with members := collectSet ms } : Draft).members = collectSet ms from rfl,
        mem_collectSet, hmem]
      exact ⟨i, h₁, hi, rfl⟩
    · exact congrArg some ((congrArg Member.name hti).trans htname)
  · -- no member's ticket is their own name
    intro m hm
    rw [show ({ d with members := collectSet ms } : Draft).members = collectSet ms from rfl,
      mem_collectSet, hmem] at hm
    obtain ⟨i, h₁, h₂, rfl⟩ := hm
    simp only [assignT_ticket, assignT_name, ne_eq, Option.some.injEq]
    exact hname_ne i h₁ h₂
  · -- no member's ticket names a member of the same team
    intro m hm o ho hto
    rw [show ({ d with members := collectSet ms } : Draft).members = collectSet ms from rfl,
      mem_collectSet, hmem] at hm ho
    obtain ⟨i, hi₁, hi₂, rfl⟩ := hm
    obtain ⟨j, hj₁, hj₂, rfl⟩ := ho
    simp only [assignT_ticket, assignT_name, Option.some.injEq] at hto
    have hmj : d.members.get ⟨j, hj₁⟩ = ts.get ⟨i, hi₂⟩ :=
      hinj _ (List.get_mem _ _ _) _ (hget i hi₁ hi₂).1 hto.symm
    simp only [assignT_team]
    rw [hmj]
    exact (hget i hi₁ hi₂).2.2

/-! ## Reducing an all-teams feasibility hypothesis to the member teams -/

lemma team_len_eq_zero_of_not_mem (d : Draft) (t : Nat)
    (h : ∀ m ∈ d.members, m.team ≠ t) : d.team_len t = 0 := by
  rw [team_len_eq_countP, List.countP_eq_zero]
  intro m hm
  simpa using h m hm

lemma feasible_of_members (d : Draft)
    (h : ∀ m ∈ d.members, d.team_len m.team ≤ d.team_possibilities m.team) :
    ∀ t, d.team_len t ≤ d.team_possibilities t := by
  intro t
  by_cases hmem : ∃ m ∈ d.members, m.team = t
  · obtain ⟨m, hm, rfl⟩ := hmem
    exact h m hm
  · push_neg at hmem
    rw [team_len_eq_zero_of_not_mem d t hmem]
    exact Nat.zero_le _

/-! ## Claim theorems -/

/-- C1 (amended): for every draft whose members carry pairwise distinct
names, whenever `calculate_tickets` (run with any sequence of valid random
draws) returns `Ok`, the resulting ticket mapping is a bijection over the
draft's member names with no fixed points and no same-team edges: every
member's ticket names another member, no two members share a ticket, every
member is some member's ticket, no member's ticket is their own name, and
no member's ticket names a member of the same team. -/
theorem c1_solve_validity (picks : List Picker) (d d₂ : Draft)
    (hpicks : ∀ p ∈ picks, ValidPicker p)
    (hnames : (d.members.map Member.name).Nodup)
    (h : d.calculate_tickets picks = some (.ok d₂)) :
    ValidAssignment d₂ := by
  obtain ⟨pick, hpmem, ms, hms, rfl⟩ := calculate_tickets_ok d picks d₂ h
  exact solve_valid d pick (hpicks pick hpmem) hnames ms hms

/-- C1 counterexample: on the duplicate-name draft `dAA` (two members both
named `A`, reachable through `from_form`), the solver succeeds — the draw
is forced, so this is the run every valid picker produces — yet the first
member's ticket is its own name and both members carry the same ticket, so
the claim as stated (over every draft) is false. -/
theorem c1_counterexample :
    ValidPicker headPick ∧
    dAA.calculate_tickets [headPick] = some (.ok dAAres) ∧
    Member.mk "A" 1 (some "A") ∈ dAAres.members ∧
    Member.mk "A" 2 (some "A") ∈ dAAres.members ∧
    (Member.mk "A" 1 (some "A")).ticket = some (Member.mk "A" 1 (some "A")).name ∧
    Member.mk "A" 1 (some "A") ≠ Member.mk "A" 2 (some "A") ∧
    (Member.mk "A" 1 (some "A")).ticket = (Member.mk "A" 2 (some "A")).ticket ∧
    ¬ ValidAssignment dAAres :=
  ⟨validPicker_headPick, rfl, by decide, by decide, rfl, by decide, rfl,
    fun hva => absurd rfl (hva.2.2.2.1 (Member.mk "A" 1 (some "A")) (by decide))⟩

/-- C1 witness: the two-member, two-team draft `dW` solves under the head
picker and the resulting `dWres` satisfies every validity property. -/
theorem c1_solve_validity_witness :
    (∀ p ∈ [headPick], ValidPicker p) ∧
    (dW.members.map Member.name).Nodup ∧
    dW.calculate_tickets [headPick] = some (.ok dWres) ∧
    ValidAssignment dWres := by
  have h1 : ∀ p ∈ [headPick], ValidPicker p := by
    intro p hp
    simp only [List.mem_singleton] at hp
    subst hp
    exact validPicker_headPick
  have h2 : (dW.members.map Member.name).Nodup := by decide
  have h3 : dW.calculate_tickets [headPick] = some (.ok dWres) := rfl
  exact ⟨h1, h2, h3, c1_solve_validity [headPick] dW dWres h1 h2 h3⟩

/-- C2: the feasibility check fails exactly on infeasible team
distributions: if some team has more members than outside candidates,
`calculate_tickets` answers `NotEnoughPossibilities` (for every picker
sequence, including the empty one — no assignment is attempted); if every
team fits, no run of `calculate_tickets` ever returns that error. -/
theorem c2_feasibility_exact (d : Draft) (picks : List Picker) :
    ((∃ t, d.team_possibilities t < d.team_len t) →
      d.calculate_tickets picks = some (.error .NotEnoughPossibilities)) ∧
    ((∀ t, d.team_len t ≤ d.team_possibilities t) →
      ∀ r, d.calculate_tickets picks = some r →
        r ≠ .error .NotEnoughPossibilities) := by
  constructor
  · rintro ⟨t, ht⟩
    obtain ⟨w, hw⟩ := feasibilityFailure_isSome d t ht
    exact calculate_tickets_infeasible d w hw picks
  · intro hfeas
    exact calculate_tickets_feasible_not_error d hfeas picks

/-- C2 witness: the all-team-1 draft `dT1` is rejected as infeasible, and
the feasible draft `dW` solves without ever producing the infeasibility
error. -/
theorem c2_feasibility_exact_witness :
    dT1.calculate_tickets [] = some (.error .NotEnoughPossibilities) ∧
    (Except.ok dWres : Except DraftError Draft) ≠ .error .NotEnoughPossibilities := by
  constructor
  · exact (c2_feasibility_exact dT1 []).1 ⟨1, by decide⟩
  · exact (c2_feasibility_exact dW [headPick]).2
      (feasible_of_members dW (by decide)) (.ok dWres) rfl

/-- C3: contrary to the claim, the retry has no attempt counter and no
ceiling: `calculate_tickets` is a recursive self-call that retries after
every failed attempt, and `DraftError` has no exhaustion variant.  On the
feasible draft `dABC`, head-first draws make every attempt fail (`A` draws
`B`, `B` draws `A`, `C` is left with no candidate), and after `n` failed
attempts — for every `n` — the solver is still retrying rather than
returning a typed exhaustion error. -/
theorem c3_unbounded_retry :
    ∀ n : Nat, dABC.calculate_tickets (List.replicate n headPick) = none := by
  intro n
  induction n with
  | zero => rfl
  | succ k ih =>
    rw [List.replicate_succ]
    have step : ∀ rest, dABC.calculate_tickets (headPick :: rest)
        = dABC.calculate_tickets rest := fun _ => rfl
    rw [step]
    exact ih

/-- C4: contrary to the claim, submitting the same participant name twice
is not rejected: `from_form` ignores the result of `HashSet::insert`, and
because member equality compares all fields, the same name on a different
team yields two coexisting members.  The submission `c4items` (name `A` on
team 1 and again on team 2) produces a fully built draft containing two
distinct members that share the name `A`, and no error. -/
theorem c4_duplicate_name_accepted :
    from_form c4items [headPick] = some (.ok c4draft) ∧
    Member.mk "A" 1 (some "A") ∈ c4draft.members ∧
    Member.mk "A" 2 (some "A") ∈ c4draft.members ∧
    Member.mk "A" 1 (some "A") ≠ Member.mk "A" 2 (some "A") ∧
    (Member.mk "A" 1 (some "A")).name = (Member.mk "A" 2 (some "A")).name :=
  ⟨rfl, by decide, by decide, by decide, rfl⟩

/-- C5: contrary to the claim, an unparsable team value does not produce
`InvalidData`: the `unwrap` on `u32::from_str_radix` panics, embedded as
`none` — `from_form` returns nothing at all to its caller on `c5items`
(team value `x`). -/
theorem c5_unparsable_team_panics :
    parseU32 "x" = none ∧
    processItems c5items emptyDraft none = none ∧
    from_form c5items [headPick] = none :=
  ⟨rfl, rfl, rfl⟩

/-- C6 (amended): when the feasibility check fails, the error returned is
the payload-free unit variant `NotEnoughPossibilities` — the same value
whichever team is offending — so it carries no team tag. -/
theorem c6_infeasible_error_payload_free (d : Draft) (picks : List Picker) (t : Nat)
    (h : d.team_possibilities t < d.team_len t) :
    d.calculate_tickets picks = some (.error .NotEnoughPossibilities) := by
  obtain ⟨w, hw⟩ := feasibilityFailure_isSome d t h
  exact calculate_tickets_infeasible d w hw picks

/-- C6 counterexample: `dT1` (offending team 1) and `dT2` (offending team
2) produce the very same error value, so the error cannot identify the
offending team. -/
theorem c6_counterexample :
    dT1.team_possibilities 1 < dT1.team_len 1 ∧
    dT2.team_possibilities 2 < dT2.team_len 2 ∧
    dT1.calculate_tickets [headPick] = some (.error .NotEnoughPossibilities) ∧
    dT2.calculate_tickets [headPick] = some (.error .NotEnoughPossibilities) ∧
    dT1.calculate_tickets [headPick] = dT2.calculate_tickets [headPick] :=
  ⟨by decide, by decide, rfl, rfl, rfl⟩

/-- C6 witness: the amended theorem applied to `dT1` at team 1. -/
theorem c6_infeasible_error_payload_free_witness :
    dT1.team_possibilities 1 < dT1.team_len 1 ∧
    dT1.calculate_tickets [] = some (.error .NotEnoughPossibilities) :=
  ⟨by decide, c6_infeasible_error_payload_free dT1 [] 1 (by decide)⟩

/-- C7: the internal restart signal never escapes: whenever
`calculate_tickets` returns an error it is never `CalculateAgain`, and the
only errors `from_form` can return are `InvalidData`,
`MemberAlreadyDefined` or `NotEnoughPossibilities` (in fact
`MemberAlreadyDefined` is itself never produced — the error is always one
of the other two). -/
theorem c7_internal_signal_never_escapes :
    (∀ (picks : List Picker) (d : Draft) (e : DraftError),
      d.calculate_tickets picks = some (.error e) → e ≠ .CalculateAgain) ∧
    (∀ (items : List (String × String)) (picks : List Picker) (e : DraftError),
      from_form items picks = some (.error e) →
        e = .InvalidData ∨ e = .MemberAlreadyDefined ∨ e = .NotEnoughPossibilities) := by
  constructor
  · intro picks d e h
    have he := calculate_tickets_error d picks e h
    subst he
    decide
  · intro items picks e h
    rcases from_form_error items picks e h with h1 | h1
    · exact Or.inl h1
    · exact Or.inr (Or.inr h1)

/-- C7 witness: the single-member submission fails with
`NotEnoughPossibilities`, which is covered by the error bound and is not
the internal restart signal. -/
theorem c7_internal_signal_never_escapes_witness :
    from_form c7items [headPick] = some (.error .NotEnoughPossibilities) ∧
    (DraftError.NotEnoughPossibilities = .InvalidData ∨
      DraftError.NotEnoughPossibilities = .MemberAlreadyDefined ∨
      DraftError.NotEnoughPossibilities = .NotEnoughPossibilities) ∧
    DraftError.NotEnoughPossibilities ≠ .CalculateAgain := by
  refine ⟨rfl, ?_, ?_⟩
  · exact c7_internal_signal_never_escapes.2 c7items [headPick] _ rfl
  · exact c7_internal_signal_never_escapes.1 [headPick] dSingle _ rfl

/-- C8: an externally visible draft is fully solved or absent: every draft
`from_form` returns has `ticket = some _` on every member (failure paths
return an error and no draft), and `api_post_draft` stores exactly that
draft, answering with its index. -/
theorem c8_fully_solved_or_absent :
    (∀ (items : List (String × String)) (picks : List Picker) (d : Draft),
      from_form items picks = some (.ok d) → ∀ m ∈ d.members, m.ticket.isSome) ∧
    (∀ (d : Draft) (store : List Draft),
      (api_post_draft d store).1 = store ++ [d] ∧
        (api_post_draft d store).2 = some store.length) := by
  constructor
  · intro items picks d h m hm
    obtain ⟨d₀, hp, hc⟩ := from_form_ok items picks d h
    obtain ⟨pick, hpmem, ms, hms, rfl⟩ := calculate_tickets_ok d₀ picks d hc
    have hm2 : m ∈ collectSet ms := hm
    rw [mem_collectSet] at hm2
    exact attemptGo_ticket_isSome d₀ pick d₀.members [] ms hms m hm2
  · intro d store
    exact ⟨rfl, rfl⟩

/-- C8 witness: the well-formed submission `itemsAB` yields the fully
ticketed `dWres`, every member of which carries a ticket, and posting it
appends it to the store. -/
theorem c8_fully_solved_or_absent_witness :
    from_form itemsAB [headPick] = some (.ok dWres) ∧
    (∀ m ∈ dWres.members, m.ticket.isSome) ∧
    (api_post_draft dWres []).1 = [dWres] := by
  refine ⟨rfl, ?_, ?_⟩
  · exact c8_fully_solved_or_absent.1 itemsAB [headPick] dWres rfl
  · exact (c8_fully_solved_or_absent.2 dWres []).1

/-- C9: the recipient lookup is a read-only query on the store: unknown
draft index or unknown member name answer `none`, and a found member
answers exactly the ticket recorded for it. -/
theorem c9_lookup_ticket (drafts : List Draft) (idx : Nat) (name : String) :
    (drafts[idx]? = none → api_draft_ticket drafts idx name = none) ∧
    (∀ d, drafts[idx]? = some d →
      d.members.find? (fun member => member.name == name) = none →
      api_draft_ticket drafts idx name = none) ∧
    (∀ d m, drafts[idx]? = some d →
      d.members.find? (fun member => member.name == name) = some m →
      api_draft_ticket drafts idx name = m.ticket) := by
  refine ⟨?_, ?_, ?_⟩
  · intro h
    unfold api_draft_ticket
    simp only [h]
  · intro d hd hf
    unfold api_draft_ticket
    simp only [hd, hf]
  · intro d m hd hf
    unfold api_draft_ticket
    simp only [hd, hf]

/-- C9 witness: on the one-draft store `storeW`, looking up `A` in draft 0
answers its recorded recipient `B`; an unknown draft index and an unknown
member name both answer `none`. -/
theorem c9_lookup_ticket_witness :
    api_draft_ticket storeW 0 "A" = some "B" ∧
    api_draft_ticket storeW 1 "A" = none ∧
    api_draft_ticket storeW 0 "C" = none := by
  refine ⟨?_, ?_, ?_⟩
  · exact (c9_lookup_ticket storeW 0 "A").2.2 dWres (Member.mk "A" 1 (some "B")) rfl rfl
  · exact (c9_lookup_ticket storeW 1 "A").1 rfl
  · exact (c9_lookup_ticket storeW 0 "C").2.1 dWres rfl rfl

/-- C10: a submission ending in a `name` item (with a non-empty value) not
followed by a `team` item behaves exactly as if the dangling name had not
been submitted: no member is added for it and no error is raised. -/
theorem c10_dangling_name_discarded (items : List (String × String)) (v : String)
    (picks : List Picker) (hv : v ≠ "") :
    from_form (items ++ [("name", v)]) picks = from_form items picks := by
  unfold from_form
  rw [processItems_append_name v hv]

/-- C10 witness: appending a dangling `name C` to the well-formed
submission `itemsAB` still succeeds, producing the same solved draft that
omits `C`. -/
theorem c10_dangling_name_discarded_witness :
    from_form (itemsAB ++ [("name", "C")]) [headPick] = from_form itemsAB [headPick] ∧
    from_form (itemsAB ++ [("name", "C")]) [headPick] = some (.ok dWres) := by
  have h := c10_dangling_name_discarded itemsAB "C" [headPick] (by decide)
  exact ⟨h, h.trans rfl⟩
